import Mathlib

/-!
Verification of the MNIST nearest-neighbour classifier notebooks.

Vectors are embedded as lists of rationals, labels as integers.  The
implicit NumPy random draw of `np.random.choice(old_size, new_size,
replace=False)` is made explicit: the drawn index list is passed in as an
argument, and its guarantees (distinctness, bounds, length) appear as
hypotheses where a claim needs them.  Functions that can raise in Python
get a `_chk` variant returning `Except String`, mirroring exactly the
checks the library performs; the unchecked function is the computation on
the non-raising path.
-/

/-- Squared Euclidean distance of two equal-length vectors:
`np.square(a - b).sum()` for one-dimensional arrays of the same shape. -/
def sqDist (q r : List ℚ) : ℚ :=
  (List.zipWith (fun a b => (a - b) ^ 2) q r).sum

/-- NumPy broadcast compatibility of two one-dimensional lengths:
equal, or one of them is 1. -/
def bcastCompat (a b : ℕ) : Bool :=
  a == b || a == 1 || b == 1

/-- Value of `np.square(q - r).sum()` including NumPy broadcasting when one
of the operands has length 1 (the subtraction does not require the lengths
to be equal in that case). -/
def sqDistB (q r : List ℚ) : ℚ :=
  if q.length = r.length then sqDist q r
  else if q.length = 1 then (r.map (fun b => (q.headI - b) ^ 2)).sum
  else (q.map (fun a => (a - r.headI) ^ 2)).sum

/-- Minimum of a list of rationals (`ndarray.min`); 0 on the empty list,
where NumPy would raise instead. -/
def listMin : List ℚ → ℚ
  | [] => 0
  | [x] => x
  | x :: y :: ys => min x (listMin (y :: ys))

/-- Behaviour of `ndarray.argmin`: index of the first occurrence of the
minimum; 0 on the empty list, where NumPy would raise instead. -/
def argminIdx : List ℚ → ℕ
  | [] => 0
  | [_] => 0
  | x :: y :: ys => if x ≤ listMin (y :: ys) then 0 else argminIdx (y :: ys) + 1

/-- Streaming classifier `classify_image(test_img, train_img, train_labels)`
of the notebook:
`DM = np.square(test_img - train_img).sum(axis = 1)`,
`index = DM.argmin(axis = 0)`, `return train_labels[index]`. -/
def classify_image (test_img : List ℚ) (train_img : List (List ℚ))
    (train_labels : List ℤ) : ℤ :=
  let DM := train_img.map (fun r => sqDistB test_img r)
  let index := argminIdx DM
  train_labels.getD index 0

/-- The streaming strategy applied to a whole query set, as the notebook
does: `[classify_image(test, train_img, train_labels) for test in test_img]`. -/
def classify_stream (train_img : List (List ℚ)) (train_labels : List ℤ)
    (test_img : List (List ℚ)) : List ℤ :=
  test_img.map (fun t => classify_image t train_img train_labels)

/-- Batched classifier `classify_images(train_img, train_labels, test_img,
N_train, N_test)` of the second notebook: after the reshapes,
`DM = np.square(Te - Tr).sum(axis = 2)` has `DM[i][j]` equal to the squared
distance between test vector `j` and train vector `i`;
`indexes = DM.argmin(axis = 0)` reduces along the reference (train) axis,
and the result is `train_labels[indexes]`. -/
def classify_images (train_img : List (List ℚ)) (train_labels : List ℤ)
    (test_img : List (List ℚ)) : List ℤ :=
  let DM := train_img.map (fun tr => test_img.map (fun te => sqDist te tr))
  let indexes := (List.range test_img.length).map
    (fun j => argminIdx (DM.map (fun row => row.getD j 0)))
  indexes.map (fun i => train_labels.getD i 0)

/-- Error-tracking variant of `classify_image`.  NumPy raises on the
subtraction when the query length and the row length are not
broadcast-compatible, and on `argmin` when the reference set is empty;
otherwise the call returns normally. -/
def classify_image_chk (test_img : List ℚ) (train_img : List (List ℚ))
    (train_labels : List ℤ) : Except String ℤ :=
  if train_img.all (fun r => bcastCompat test_img.length r.length) then
    if train_img.isEmpty then
      Except.error ("ValueError: attempt to get argmin of an empty sequence")
    else
      Except.ok (classify_image test_img train_img train_labels)
  else
    Except.error ("ValueError: operands could not be broadcast together")

/-- NumPy `.astype(int)` on a scalar: truncation toward zero. -/
def astypeInt (q : ℚ) : ℤ :=
  Int.tdiv q.num (q.den : ℤ)

/-- Embedding of `get_random_subset(data, new_size)` with the random index draw made
explicit: `indexes` stands for the result of
`np.random.choice(old_size, new_size, replace = False)`;
`labels = data[indexes, 0].astype(int)` and `images = data[indexes, 1:]`. -/
def get_random_subset (data : List (List ℚ)) (indexes : List ℕ) :
    List ℤ × List (List ℚ) :=
  (indexes.map (fun i => astypeInt ((data.getD i []).getD 0 0)),
   indexes.map (fun i => (data.getD i []).drop 1))

/-- Variant of `get_random_subset` including the validity checks of the legacy NumPy
`RandomState.choice`: it raises when the population size is not positive,
and when a sample larger than the population is requested without
replacement; otherwise the draw succeeds. -/
def get_random_subset_chk (data : List (List ℚ)) (new_size : ℕ)
    (pick : List ℕ) : Except String (List ℤ × List (List ℚ)) :=
  if data.length = 0 then
    Except.error ("ValueError: a must be greater than 0")
  else if data.length < new_size then
    Except.error ("ValueError: cannot take a larger sample than population when replace is False")
  else
    Except.ok (get_random_subset data pick)

/-- One iteration of the loop body of `get_average_accuracy`: draw a subset
(with the index draw `idx` made explicit), classify every test image with
the streaming classifier, count the predictions matching `test_labels`, and
divide by `test_labels.shape[0]`. -/
def repAccuracy (test_img : List (List ℚ)) (test_labels : List ℤ)
    (train_data : List (List ℚ)) (idx : List ℕ) : ℚ :=
  let sub := get_random_subset train_data idx
  let predicted := classify_stream sub.2 sub.1 test_img
  let success :=
    (List.zipWith (fun a b => if a = b then (1 : ℕ) else 0) predicted test_labels).sum
  (success : ℚ) / (test_labels.length : ℚ)

/-- Embedding of `get_average_accuracy(test_img, train_data, train_subset_size,
iterations_count)`: the loop accumulates `total_accuracy` over the
iterations and the result is `total_accuracy / iterations_count`.  The
random draws of the iterations are made explicit as `draws`, one index
list per iteration, so `draws.length` plays the role of
`iterations_count`. -/
def get_average_accuracy (test_img : List (List ℚ)) (test_labels : List ℤ)
    (train_data : List (List ℚ)) (draws : List (List ℕ)) : ℚ :=
  (draws.foldl (fun acc idx => acc + repAccuracy test_img test_labels train_data idx) 0)
    / (draws.length : ℚ)

/-- Error-tracking variant of `get_average_accuracy`: with
`iterations_count = 0` the loop never runs, `total_accuracy` stays the
integer 0, and the final `total_accuracy / iterations_count` is an integer
division by zero, which raises in Python. -/
def get_average_accuracy_chk (test_img : List (List ℚ)) (test_labels : List ℤ)
    (train_data : List (List ℚ)) (draws : List (List ℕ)) : Except String ℚ :=
  if draws.length = 0 then
    Except.error ("ZeroDivisionError: division by zero")
  else
    Except.ok (get_average_accuracy test_img test_labels train_data draws)

/-- The experiment driver: `accuracy_info` is the list-comprehension
`[get_average_accuracy(test_img, train_data, size, iters) for size, iters
in zip(size_of_subset_v, count_of_iters_v)]`.  A schedule entry is given
by the explicit random draws of its repetitions: for each entry
`iterations_count` is the number of draws and its subset size the length
of each draw. -/
def accuracy_info (test_img : List (List ℚ)) (test_labels : List ℤ)
    (train_data : List (List ℚ)) (schedule : List (List (List ℕ))) : List ℚ :=
  schedule.map (fun draws => get_average_accuracy test_img test_labels train_data draws)

/-- Value at an index below the length, through `map`. -/
theorem getD_map_lt {α β : Type} (f : α → β) :
    ∀ (l : List α) (j : ℕ), j < l.length →
      ∀ (d : β) (d0 : α), (l.map f).getD j d = f (l.getD j d0) := by
  intro l
  induction l with
  | nil => intro j hj; simp at hj
  | cons x xs ih =>
    intro j hj d d0
    cases j with
    | zero => simp
    | succ k =>
      simp only [List.map_cons, List.getD_cons_succ]
      exact ih k (by simpa using hj) d d0

theorem listMin_le_getD :
    ∀ (l : List ℚ) (k : ℕ), k < l.length → listMin l ≤ l.getD k 0 := by
  intro l
  induction l with
  | nil => intro k hk; simp at hk
  | cons x xs ih =>
    intro k hk
    cases xs with
    | nil =>
      have hk0 : k = 0 := by simpa using Nat.lt_one_iff.mp (by simpa using hk)
      subst hk0
      simp [listMin]
    | cons y ys =>
      cases k with
      | zero =>
        simp only [listMin, List.getD_cons_zero]
        exact min_le_left x (listMin (y :: ys))
      | succ m =>
        have hm : m < (y :: ys).length := by simpa using hk
        calc listMin (x :: y :: ys) = min x (listMin (y :: ys)) := by simp [listMin]
          _ ≤ listMin (y :: ys) := min_le_right _ _
          _ ≤ (y :: ys).getD m 0 := ih m hm

theorem argminIdx_lt_length :
    ∀ (l : List ℚ), l ≠ [] → argminIdx l < l.length := by
  intro l
  induction l with
  | nil => intro h; exact absurd rfl h
  | cons x xs ih =>
    intro _
    cases xs with
    | nil => simp [argminIdx]
    | cons y ys =>
      by_cases hx : x ≤ listMin (y :: ys)
      · simp [argminIdx, hx]
      · have h2 : argminIdx (y :: ys) < ys.length + 1 := by simpa using ih (by simp)
        simp only [argminIdx, if_neg hx, List.length_cons]
        omega

theorem getD_argminIdx :
    ∀ (l : List ℚ), l ≠ [] → l.getD (argminIdx l) 0 = listMin l := by
  intro l
  induction l with
  | nil => intro h; exact absurd rfl h
  | cons x xs ih =>
    intro _
    cases xs with
    | nil => simp [argminIdx, listMin]
    | cons y ys =>
      by_cases hx : x ≤ listMin (y :: ys)
      · simp [argminIdx, hx, listMin, min_eq_left hx]
      · have hlt : listMin (y :: ys) < x := lt_of_not_le hx
        simp only [argminIdx, if_neg hx, listMin, List.getD_cons_succ]
        rw [ih (by simp), min_eq_right (le_of_lt hlt)]

theorem listMin_lt_getD_of_lt_argminIdx :
    ∀ (l : List ℚ) (k : ℕ), k < argminIdx l → listMin l < l.getD k 0 := by
  intro l
  induction l with
  | nil => intro k hk; simp [argminIdx] at hk
  | cons x xs ih =>
    intro k hk
    cases xs with
    | nil => simp [argminIdx] at hk
    | cons y ys =>
      by_cases hx : x ≤ listMin (y :: ys)
      · simp [argminIdx, hx] at hk
      · have hlt : listMin (y :: ys) < x := lt_of_not_le hx
        simp only [argminIdx, if_neg hx] at hk
        cases k with
        | zero =>
          simpa [listMin, min_eq_right (le_of_lt hlt)] using hlt
        | succ m =>
          have hm : m < argminIdx (y :: ys) := by omega
          have := ih m hm
          simpa [listMin, min_eq_right (le_of_lt hlt)] using this

/-- `argminIdx` is characterised as the least index attaining the minimum. -/
theorem argminIdx_eq_of_first_min (l : List ℚ) (i : ℕ) (hi : i < l.length)
    (hmin : ∀ k, k < l.length → l.getD i 0 ≤ l.getD k 0)
    (hfirst : ∀ k, k < i → l.getD i 0 < l.getD k 0) : argminIdx l = i := by
  have hne : l ≠ [] := by
    intro h
    subst h
    simp at hi
  have ha := argminIdx_lt_length l hne
  rcases lt_trichotomy (argminIdx l) i with h | h | h
  · have h1 := hfirst _ h
    have h2 : l.getD (argminIdx l) 0 ≤ l.getD i 0 := by
      rw [getD_argminIdx l hne]
      exact listMin_le_getD l i hi
    exact absurd h2 (not_le_of_lt h1)
  · exact h
  · have h1 := listMin_lt_getD_of_lt_argminIdx l i h
    have h2 := hmin _ ha
    rw [getD_argminIdx l hne] at h2
    exact absurd h2 (not_le_of_lt h1)

theorem sqDistB_eq_sqDist (q r : List ℚ) (h : q.length = r.length) :
    sqDistB q r = sqDist q r := by
  simp [sqDistB, h]

/-- On rectangular input of matching widths, the batched strategy computes,
query by query, the very argmin the streaming strategy computes. -/
theorem classify_images_eq_stream (train_img : List (List ℚ)) (train_labels : List ℤ)
    (test_img : List (List ℚ)) (L : ℕ)
    (htr : ∀ r ∈ train_img, r.length = L)
    (hte : ∀ q ∈ test_img, q.length = L) :
    classify_images train_img train_labels test_img =
      classify_stream train_img train_labels test_img := by
  unfold classify_images classify_stream
  apply List.ext_getElem
  · simp
  · intro n h1 h2
    simp only [List.length_map, List.length_range] at h1
    simp only [List.length_map] at h2
    simp only [List.getElem_map, List.getElem_range]
    have key : (train_img.map (fun tr => test_img.map (fun te => sqDist te tr))).map
        (fun row => row.getD n 0) =
        train_img.map (fun r => sqDistB (test_img[n]) r) := by
      rw [List.map_map]
      apply List.map_congr_left
      intro tr htr1
      simp only [Function.comp]
      rw [getD_map_lt (fun te => sqDist te tr) test_img n h2 0 []]
      rw [List.getD_eq_getElem test_img [] h2]
      rw [sqDistB_eq_sqDist]
      rw [hte _ (List.getElem_mem h2), htr _ htr1]
    simp only [classify_image, key]

/-- Full behaviour of one streaming classification: the returned label is
the label at the first index minimising the squared Euclidean distance to
the query. -/
theorem classify_image_spec (q : List ℚ) (train_img : List (List ℚ))
    (train_labels : List ℤ) (L : ℕ)
    (hne : train_img ≠ []) (hq : q.length = L)
    (htr : ∀ r ∈ train_img, r.length = L) :
    ∃ i, i < train_img.length ∧
      classify_image q train_img train_labels = train_labels.getD i 0 ∧
      (∀ k, k < train_img.length →
        sqDist q (train_img.getD i []) ≤ sqDist q (train_img.getD k [])) ∧
      (∀ k, k < i →
        sqDist q (train_img.getD i []) < sqDist q (train_img.getD k [])) := by
  have hmap : train_img.map (fun r => sqDistB q r) = train_img.map (fun r => sqDist q r) :=
    List.map_congr_left (fun r hr => sqDistB_eq_sqDist q r (by rw [hq, htr r hr]))
  have hdne : train_img.map (fun r => sqDist q r) ≠ [] := by
    simpa using hne
  have hlen : (train_img.map (fun r => sqDist q r)).length = train_img.length := by
    simp
  have hgd : ∀ m, m < train_img.length →
      (train_img.map (fun r => sqDist q r)).getD m 0 = sqDist q (train_img.getD m []) := by
    intro m hm
    exact getD_map_lt (fun r => sqDist q r) train_img m hm 0 []
  have hargl : argminIdx (train_img.map (fun r => sqDist q r)) < train_img.length := by
    rw [← hlen]
    exact argminIdx_lt_length _ hdne
  refine ⟨argminIdx (train_img.map (fun r => sqDist q r)), hargl, ?_, ?_, ?_⟩
  · simp [classify_image, hmap]
  · intro k hk
    rw [← hgd _ hargl, ← hgd _ hk, getD_argminIdx _ hdne]
    exact listMin_le_getD _ k (by rw [hlen]; exact hk)
  · intro k hk
    rw [← hgd _ hargl, ← hgd _ (lt_trans hk hargl), getD_argminIdx _ hdne]
    exact listMin_lt_getD_of_lt_argminIdx _ k hk

/-- C1: for every reference set and every sequence of query vectors of the
vector length of the reference set, the batched strategy (full pairwise
squared-distance matrix, reduced along the reference axis) and the
streaming strategy (one query at a time against the whole reference set)
produce identical sequences of predicted labels. -/
theorem C1_batched_streaming_equiv (train_img : List (List ℚ)) (train_labels : List ℤ)
    (test_img : List (List ℚ)) (L : ℕ)
    (hne : train_img ≠ [])
    (htr : ∀ r ∈ train_img, r.length = L)
    (hte : ∀ q ∈ test_img, q.length = L) :
    classify_images train_img train_labels test_img =
      classify_stream train_img train_labels test_img :=
  classify_images_eq_stream train_img train_labels test_img L htr hte

/-- Witness for C1 at the four-point reference pool of the
end-to-end scenario with two queries. -/
theorem C1_witness :
    classify_images [[0,0],[0,1],[5,5],[5,6]] [0,0,1,1] [[0,2/5],[5,27/5]] =
      classify_stream [[0,0],[0,1],[5,5],[5,6]] [0,0,1,1] [[0,2/5],[5,27/5]] :=
  C1_batched_streaming_equiv [[0,0],[0,1],[5,5],[5,6]] [0,0,1,1]
    [[0,2/5],[5,27/5]] 2 (by simp) (by simp) (by simp)

/-- C2: on a non-empty reference set of common vector length L and queries
of length L, classification yields exactly one predicted label per query,
in query order, and each prediction is the label of a reference vector at
minimal squared Euclidean distance to its query. -/
theorem C2_classify_functional (train_img : List (List ℚ)) (train_labels : List ℤ)
    (test_img : List (List ℚ)) (L : ℕ)
    (hne : train_img ≠ [])
    (htr : ∀ r ∈ train_img, r.length = L)
    (hte : ∀ q ∈ test_img, q.length = L) :
    (classify_stream train_img train_labels test_img).length = test_img.length ∧
    ∀ j, j < test_img.length →
      ∃ i, i < train_img.length ∧
        (classify_stream train_img train_labels test_img).getD j 0 =
          train_labels.getD i 0 ∧
        ∀ k, k < train_img.length →
          sqDist (test_img.getD j []) (train_img.getD i []) ≤
            sqDist (test_img.getD j []) (train_img.getD k []) := by
  constructor
  · simp [classify_stream]
  · intro j hj
    have hqmem : test_img.getD j [] ∈ test_img := by
      rw [List.getD_eq_getElem test_img [] hj]
      exact List.getElem_mem hj
    obtain ⟨i, hi, heq, hmin, _⟩ :=
      classify_image_spec (test_img.getD j []) train_img train_labels L hne
        (hte _ hqmem) htr
    refine ⟨i, hi, ?_, hmin⟩
    rw [← heq]
    unfold classify_stream
    exact getD_map_lt (fun t => classify_image t train_img train_labels) test_img j hj 0 []

/-- Witness for C2 at a concrete reference pool and query. -/
theorem C2_witness :
    (classify_stream [[0,0],[0,1],[5,5],[5,6]] [0,0,1,1] [[0,2/5]]).length =
      ([[0,2/5]] : List (List ℚ)).length ∧
    ∀ j, j < ([[0,2/5]] : List (List ℚ)).length →
      ∃ i, i < ([[0,0],[0,1],[5,5],[5,6]] : List (List ℚ)).length ∧
        (classify_stream [[0,0],[0,1],[5,5],[5,6]] [0,0,1,1] [[0,2/5]]).getD j 0 =
          ([0,0,1,1] : List ℤ).getD i 0 ∧
        ∀ k, k < ([[0,0],[0,1],[5,5],[5,6]] : List (List ℚ)).length →
          sqDist (([[0,2/5]] : List (List ℚ)).getD j [])
              (([[0,0],[0,1],[5,5],[5,6]] : List (List ℚ)).getD i []) ≤
            sqDist (([[0,2/5]] : List (List ℚ)).getD j [])
              (([[0,0],[0,1],[5,5],[5,6]] : List (List ℚ)).getD k []) :=
  C2_classify_functional [[0,0],[0,1],[5,5],[5,6]] [0,0,1,1] [[0,2/5]] 2
    (by simp) (by simp) (by simp)

/-- C3: when several reference vectors attain the exact minimum distance to
the query, both strategies return the label at the lowest such index. -/
theorem C3_tiebreak (q : List ℚ) (train_img : List (List ℚ)) (train_labels : List ℤ)
    (L : ℕ) (hq : q.length = L) (htr : ∀ r ∈ train_img, r.length = L)
    (i : ℕ) (hi : i < train_img.length)
    (hmin : ∀ k, k < train_img.length →
      sqDist q (train_img.getD i []) ≤ sqDist q (train_img.getD k []))
    (hfirst : ∀ k, k < i →
      sqDist q (train_img.getD i []) < sqDist q (train_img.getD k []))
    (htie : ∃ j, j < train_img.length ∧ j ≠ i ∧
      sqDist q (train_img.getD j []) = sqDist q (train_img.getD i [])) :
    classify_image q train_img train_labels = train_labels.getD i 0 ∧
    classify_images train_img train_labels [q] = [train_labels.getD i 0] := by
  have hne : train_img ≠ [] := by
    intro h
    subst h
    simp at hi
  have hmap : train_img.map (fun r => sqDistB q r) = train_img.map (fun r => sqDist q r) :=
    List.map_congr_left (fun r hr => sqDistB_eq_sqDist q r (by rw [hq, htr r hr]))
  have hlen : (train_img.map (fun r => sqDist q r)).length = train_img.length := by
    simp
  have hgd : ∀ m, m < train_img.length →
      (train_img.map (fun r => sqDist q r)).getD m 0 = sqDist q (train_img.getD m []) := by
    intro m hm
    exact getD_map_lt (fun r => sqDist q r) train_img m hm 0 []
  have harg : argminIdx (train_img.map (fun r => sqDist q r)) = i := by
    apply argminIdx_eq_of_first_min _ i (by rw [hlen]; exact hi)
    · intro k hk
      rw [hlen] at hk
      rw [hgd _ hi, hgd _ hk]
      exact hmin k hk
    · intro k hk
      rw [hgd _ hi, hgd _ (lt_trans hk hi)]
      exact hfirst k hk
  have hstream : classify_image q train_img train_labels = train_labels.getD i 0 := by
    simp [classify_image, hmap, harg]
  refine ⟨hstream, ?_⟩
  have hb := classify_images_eq_stream train_img train_labels [q] L htr
    (by intro x hx; rw [List.mem_singleton] at hx; rw [hx]; exact hq)
  rw [hb]
  simp [classify_stream, hstream]

/-- Witness for C3: reference vectors at indices 0 and 2 are both at
distance 0 from the query; the classifier returns the label at index 0. -/
theorem C3_witness :
    classify_image [0,0] [[0,0],[0,2],[0,0]] [7,8,9] = ([7,8,9] : List ℤ).getD 0 0 ∧
    classify_images [[0,0],[0,2],[0,0]] [7,8,9] [[0,0]] = [([7,8,9] : List ℤ).getD 0 0] :=
  C3_tiebreak [0,0] [[0,0],[0,2],[0,0]] [7,8,9] 2 (by simp) (by simp)
    0 (by simp)
    (by
      intro k hk
      simp only [List.length_cons, List.length_nil] at hk
      interval_cases k <;> norm_num [sqDist])
    (by intro k hk; exact absurd hk (Nat.not_lt_zero k))
    ⟨2, by norm_num [sqDist]⟩

/-- C9 counterexample: for query (0, 0.4) against the pool
(0,0),(0,1),(5,5),(5,6), the vector (0,0) is strictly closer than (0,1)
(distance 0.16 against 0.36), and the argmin over the distance row is
index 0, not index 1 — the nearest reference vector is (0,0), not (0,1)
as the claim states. -/
theorem C9_counterexample :
    sqDist [0, 2/5] [0, 0] < sqDist [0, 2/5] [0, 1] ∧
    argminIdx ([[0,0],[0,1],[5,5],[5,6]].map (fun r => sqDistB [0, 2/5] r)) = 0 := by
  norm_num [sqDist, sqDistB, argminIdx, listMin]

/-- C9 (amended): on the reference pool (0,0),(0,1),(5,5),(5,6) with labels
[0,0,1,1], the query (0,0.4) has nearest reference vector (0,0), index 0,
by distances 0.16 against 0.36, and is classified 0; the query (5,5.4) has
nearest reference vector (5,5), index 2, by distances 0.16 against 0.36,
and is classified 1; the batched strategy classifies the pair of queries
to [0, 1] as well. -/
theorem C9_end_to_end :
    classify_image [0, 2/5] [[0,0],[0,1],[5,5],[5,6]] [0,0,1,1] = 0 ∧
    argminIdx ([[0,0],[0,1],[5,5],[5,6]].map (fun r => sqDistB [0, 2/5] r)) = 0 ∧
    sqDist [0, 2/5] [0, 0] = 4/25 ∧
    sqDist [0, 2/5] [0, 1] = 9/25 ∧
    classify_image [5, 27/5] [[0,0],[0,1],[5,5],[5,6]] [0,0,1,1] = 1 ∧
    argminIdx ([[0,0],[0,1],[5,5],[5,6]].map (fun r => sqDistB [5, 27/5] r)) = 2 ∧
    sqDist [5, 27/5] [5, 5] = 4/25 ∧
    sqDist [5, 27/5] [5, 6] = 9/25 ∧
    classify_images [[0,0],[0,1],[5,5],[5,6]] [0,0,1,1] [[0,2/5],[5,27/5]] = [0, 1] := by
  norm_num [classify_image, classify_images, sqDist, sqDistB, argminIdx, listMin,
    List.range_succ]

/-- Truncation toward zero is the identity on integer-valued rationals. -/
theorem astypeInt_intCast (m : ℤ) : astypeInt (m : ℚ) = m := by
  simp [astypeInt, Rat.num_intCast, Rat.den_intCast, Int.tdiv_one]

/-- C4: a draw of n valid distinct indices yields exactly n records; at
every position the label and the vector are taken from the same source
row, the label being column 0 of that row and the vector its remaining
columns; the checked sampler succeeds for 0 < n ≤ size(dataset). -/
theorem C4_sample_subset (data : List (List ℚ)) (n : ℕ) (indexes : List ℕ)
    (hlen : indexes.length = n)
    (hnodup : indexes.Nodup)
    (hbound : ∀ i ∈ indexes, i < data.length)
    (hn : 0 < n) (hns : n ≤ data.length)
    (hint : ∀ row ∈ data, ∃ m : ℤ, row.getD 0 0 = (m : ℚ)) :
    (get_random_subset data indexes).1.length = n ∧
    (get_random_subset data indexes).2.length = n ∧
    (∀ k, k < n →
      (((get_random_subset data indexes).1.getD k 0 : ℤ) : ℚ) =
        (data.getD (indexes.getD k 0) []).getD 0 0 ∧
      (get_random_subset data indexes).2.getD k [] =
        (data.getD (indexes.getD k 0) []).drop 1) ∧
    get_random_subset_chk data n indexes = Except.ok (get_random_subset data indexes) := by
  have hchk : get_random_subset_chk data n indexes =
      Except.ok (get_random_subset data indexes) := by
    unfold get_random_subset_chk
    rw [if_neg (by omega), if_neg (by omega)]
  refine ⟨by simp [get_random_subset, hlen], by simp [get_random_subset, hlen], ?_, hchk⟩
  intro k hk
  have hk1 : k < indexes.length := by omega
  have hmem : indexes.getD k 0 ∈ indexes := by
    rw [List.getD_eq_getElem indexes 0 hk1]
    exact List.getElem_mem hk1
  have hrow : data.getD (indexes.getD k 0) [] ∈ data := by
    rw [List.getD_eq_getElem data [] (hbound _ hmem)]
    exact List.getElem_mem (hbound _ hmem)
  constructor
  · have h1 : (get_random_subset data indexes).1.getD k 0 =
        astypeInt ((data.getD (indexes.getD k 0) []).getD 0 0) :=
      getD_map_lt (fun i => astypeInt ((data.getD i []).getD 0 0)) indexes k hk1 0 0
    obtain ⟨m, hm⟩ := hint _ hrow
    rw [h1, hm, astypeInt_intCast]
  · exact getD_map_lt (fun i => (data.getD i []).drop 1) indexes k hk1 [] 0

/-- Witness for C4 on a concrete 3-row dataset and the draw [2, 0]. -/
theorem C4_witness :
    (get_random_subset [[7,1,2],[3,4,5],[0,9,9]] [2,0]).1.length = 2 ∧
    (get_random_subset [[7,1,2],[3,4,5],[0,9,9]] [2,0]).2.length = 2 ∧
    (∀ k, k < 2 →
      (((get_random_subset [[7,1,2],[3,4,5],[0,9,9]] [2,0]).1.getD k 0 : ℤ) : ℚ) =
        (([[7,1,2],[3,4,5],[0,9,9]] : List (List ℚ)).getD (([2,0] : List ℕ).getD k 0) []).getD 0 0 ∧
      (get_random_subset [[7,1,2],[3,4,5],[0,9,9]] [2,0]).2.getD k [] =
        (([[7,1,2],[3,4,5],[0,9,9]] : List (List ℚ)).getD (([2,0] : List ℕ).getD k 0) []).drop 1) ∧
    get_random_subset_chk [[7,1,2],[3,4,5],[0,9,9]] 2 [2,0] =
      Except.ok (get_random_subset [[7,1,2],[3,4,5],[0,9,9]] [2,0]) :=
  C4_sample_subset [[7,1,2],[3,4,5],[0,9,9]] 2 [2,0] (by simp) (by simp)
    (by intro i hi; fin_cases hi <;> simp) (by norm_num) (by simp)
    (by
      intro row hrow
      fin_cases hrow
      · exact ⟨7, by norm_num⟩
      · exact ⟨3, by norm_num⟩
      · exact ⟨0, by norm_num⟩)

/-- C6 counterexample: requesting n = 0 from a 2-row dataset does not
raise; the legacy NumPy choice accepts a size-0 sample without
replacement and the sampler returns an empty subset, where the claim
demands an InvalidSizeError. -/
theorem C6_counterexample :
    get_random_subset_chk [[0,1],[1,2]] 0 [] = Except.ok ([], []) := rfl

/-- C6 (amended): on a non-empty dataset the sampler fails exactly when
n > size(dataset); in particular n = 0 succeeds and returns an empty
subset. -/
theorem C6_sampler_error (data : List (List ℚ)) (n : ℕ) (pick : List ℕ)
    (hne : data ≠ []) :
    ((∃ msg, get_random_subset_chk data n pick = Except.error msg) ↔
      data.length < n) ∧
    get_random_subset_chk data 0 pick = Except.ok (get_random_subset data pick) := by
  have h0 : ¬ data.length = 0 := by simpa using hne
  constructor
  · unfold get_random_subset_chk
    rw [if_neg h0]
    by_cases hlt : data.length < n
    · rw [if_pos hlt]
      exact ⟨fun _ => hlt, fun _ => ⟨_, rfl⟩⟩
    · rw [if_neg hlt]
      constructor
      · rintro ⟨msg, h⟩
        exact Except.noConfusion h
      · intro h
        exact absurd h hlt
  · unfold get_random_subset_chk
    rw [if_neg h0, if_neg (by omega)]

/-- Witness for C6 (amended): on a 2-row dataset, n = 3 fails and n = 0
succeeds. -/
theorem C6_witness :
    (∃ msg, get_random_subset_chk [[0],[1]] 3 [] = Except.error msg) ∧
    get_random_subset_chk [[0],[1]] 0 [] = Except.ok (get_random_subset [[0],[1]] []) :=
  ⟨((C6_sampler_error [[0],[1]] 3 [] (by simp)).1).mpr (by norm_num),
   (C6_sampler_error [[0],[1]] 0 [] (by simp)).2⟩

/-- C7 counterexample: a query of length 1 against a non-empty reference
set of vector length 2 does not raise: NumPy broadcasting accepts the
subtraction, and the call returns label 0, where the claim demands a
DimensionMismatchError for every length mismatch. -/
theorem C7_counterexample :
    classify_image_chk [5] [[0,0]] [0] = Except.ok 0 := by
  norm_num [classify_image_chk, bcastCompat, classify_image, sqDistB, sqDist,
    argminIdx, listMin]

/-- C7 (amended): against a reference set of common vector length L, a
classification call raises exactly when the reference set is empty or the
query length is broadcast-incompatible with L, that is, differs from L
while neither length is 1; in particular a query of length L against a
non-empty reference set never raises, and a mismatched query slips
through without error whenever its length is 1 or L is 1. -/
theorem C7_dimension_errors (q : List ℚ) (train_img : List (List ℚ))
    (train_labels : List ℤ) (L : ℕ)
    (htr : ∀ r ∈ train_img, r.length = L) :
    (∃ msg, classify_image_chk q train_img train_labels = Except.error msg) ↔
      (train_img = [] ∨ ¬ (q.length = L ∨ q.length = 1 ∨ L = 1)) := by
  by_cases hemp : train_img = []
  · subst hemp
    simp [classify_image_chk]
  · have hall : (train_img.all (fun r => bcastCompat q.length r.length)) = true ↔
        (q.length = L ∨ q.length = 1 ∨ L = 1) := by
      rw [List.all_eq_true]
      constructor
      · intro h
        obtain ⟨r, hr⟩ := List.exists_mem_of_ne_nil train_img hemp
        have h2 := h r hr
        simp only [bcastCompat, Bool.or_eq_true, beq_iff_eq, htr r hr] at h2
        tauto
      · intro h r hr
        simp only [bcastCompat, Bool.or_eq_true, beq_iff_eq, htr r hr]
        tauto
    unfold classify_image_chk
    by_cases hc : q.length = L ∨ q.length = 1 ∨ L = 1
    · rw [if_pos (hall.mpr hc)]
      rw [if_neg (by simpa [List.isEmpty_iff] using hemp)]
      constructor
      · rintro ⟨msg, h⟩
        exact Except.noConfusion h
      · intro h
        rcases h with h | h
        · exact absurd h hemp
        · exact absurd hc h
    · rw [if_neg (fun h => hc (hall.mp h))]
      exact ⟨fun _ => Or.inr hc, fun _ => ⟨_, rfl⟩⟩

/-- Witness for C7 (amended): a length-3 query against a reference set of
vector length 2 raises. -/
theorem C7_witness :
    ∃ msg, classify_image_chk [1,2,3] [[0,0]] [0] = Except.error msg :=
  (C7_dimension_errors [1,2,3] [[0,0]] [0] 2 (by simp)).mpr (by norm_num)

/-- C8 counterexample: with non-empty pools but an empty schedule, the
experiment driver returns the empty result list; the comprehension over
the empty zip runs zero times and no error of any kind is raised, where
the claim demands an EmptyScheduleError instead of a result. -/
theorem C8_counterexample :
    accuracy_info [[1,2]] [1] [[0,1,2],[1,3,3]] [] = [] := rfl

/-- C8 (amended): for every input, an empty schedule makes the experiment
driver return the empty result sequence normally; the code has no
EmptyScheduleError. -/
theorem C8_empty_schedule (test_img : List (List ℚ)) (test_labels : List ℤ)
    (train_data : List (List ℚ)) :
    accuracy_info test_img test_labels train_data [] = [] := rfl

/-- C10: the averaging step raises a division-by-zero error exactly when
its iteration count is zero — the loop then never runs, the accumulator
is still the integer 0, and the final division `total_accuracy /
iterations_count` is 0 / 0 on integers; with at least one iteration the
error branch is unreachable and a value is returned. -/
theorem C10_zero_iterations (test_img : List (List ℚ)) (test_labels : List ℤ)
    (train_data : List (List ℚ)) (draws : List (List ℕ)) :
    (get_average_accuracy_chk test_img test_labels train_data draws =
        Except.error ("ZeroDivisionError: division by zero")) ↔
      draws.length = 0 := by
  unfold get_average_accuracy_chk
  by_cases h : draws.length = 0
  · rw [if_pos h]
    simp [h]
  · rw [if_neg h]
    simp [h]

theorem foldl_add_eq_sum {α : Type} (f : α → ℚ) :
    ∀ (l : List α) (a : ℚ),
      l.foldl (fun acc x => acc + f x) a = a + (l.map f).sum := by
  intro l
  induction l with
  | nil => intro a; simp
  | cons x xs ih =>
    intro a
    simp only [List.foldl_cons, List.map_cons, List.sum_cons]
    rw [ih]
    ring

/-- At each iteration the match count never exceeds the number of true labels. -/
theorem zip_match_count_le :
    ∀ (as bs : List ℤ),
      (List.zipWith (fun a b => if a = b then (1 : ℕ) else 0) as bs).sum ≤ bs.length := by
  intro as
  induction as with
  | nil => intro bs; simp
  | cons a as ih =>
    intro bs
    cases bs with
    | nil => simp
    | cons b bs =>
      simp only [List.zipWith_cons_cons, List.sum_cons, List.length_cons]
      have h := ih bs
      by_cases hab : a = b <;> simp [hab] <;> omega

/-- Accuracy of a single repetition lies in [0, 1] whenever the test label
set is non-empty. -/
theorem repAccuracy_mem_unit (test_img : List (List ℚ)) (test_labels : List ℤ)
    (train_data : List (List ℚ)) (idx : List ℕ) (hne : test_labels ≠ []) :
    0 ≤ repAccuracy test_img test_labels train_data idx ∧
      repAccuracy test_img test_labels train_data idx ≤ 1 := by
  have hpos : 0 < (test_labels.length : ℚ) := by
    have h := List.length_pos.mpr hne
    exact_mod_cast h
  unfold repAccuracy
  constructor
  · exact div_nonneg (by positivity) (le_of_lt hpos)
  · rw [div_le_one hpos]
    exact_mod_cast zip_match_count_le _ test_labels

/-- The returned average is the arithmetic mean of the per-repetition
accuracies. -/
theorem get_average_accuracy_eq_mean (test_img : List (List ℚ))
    (test_labels : List ℤ) (train_data : List (List ℚ)) (draws : List (List ℕ)) :
    get_average_accuracy test_img test_labels train_data draws =
      ((draws.map (repAccuracy test_img test_labels train_data)).sum) /
        (draws.length : ℚ) := by
  unfold get_average_accuracy
  rw [foldl_add_eq_sum]
  simp

/-- C5: the experiment output has exactly one entry per schedule entry, in
schedule order; each entry is the arithmetic mean of its per-repetition
accuracies (matching predictions over the number of test labels), and this
mean lies in [0, 1]. -/
theorem C5_accuracy_curve (test_img : List (List ℚ)) (test_labels : List ℤ)
    (train_data : List (List ℚ)) (schedule : List (List (List ℕ)))
    (hne : test_labels ≠ [])
    (hlen : test_img.length = test_labels.length)
    (hreps : ∀ ds ∈ schedule, ds ≠ []) :
    (accuracy_info test_img test_labels train_data schedule).length = schedule.length ∧
    ∀ j, j < schedule.length →
      (accuracy_info test_img test_labels train_data schedule).getD j 0 =
        ((schedule.getD j []).map (repAccuracy test_img test_labels train_data)).sum /
          ((schedule.getD j []).length : ℚ) ∧
      0 ≤ (accuracy_info test_img test_labels train_data schedule).getD j 0 ∧
      (accuracy_info test_img test_labels train_data schedule).getD j 0 ≤ 1 := by
  constructor
  · simp [accuracy_info]
  · intro j hj
    have hval : (accuracy_info test_img test_labels train_data schedule).getD j 0 =
        get_average_accuracy test_img test_labels train_data (schedule.getD j []) := by
      unfold accuracy_info
      exact getD_map_lt
        (fun draws => get_average_accuracy test_img test_labels train_data draws)
        schedule j hj 0 []
    have hds : schedule.getD j [] ≠ [] := by
      apply hreps
      rw [List.getD_eq_getElem schedule [] hj]
      exact List.getElem_mem hj
    have hdpos : 0 < ((schedule.getD j []).length : ℚ) := by
      have h := List.length_pos.mpr hds
      exact_mod_cast h
    have hsum0 : 0 ≤ ((schedule.getD j []).map
        (repAccuracy test_img test_labels train_data)).sum := by
      apply List.sum_nonneg
      intro x hx
      obtain ⟨i, _, hix⟩ := List.mem_map.mp hx
      rw [← hix]
      exact (repAccuracy_mem_unit test_img test_labels train_data i hne).1
    have hsum1 : ((schedule.getD j []).map
        (repAccuracy test_img test_labels train_data)).sum ≤
        ((schedule.getD j []).length : ℚ) := by
      have h := List.sum_le_card_nsmul
        ((schedule.getD j []).map (repAccuracy test_img test_labels train_data)) 1
        (by
          intro x hx
          obtain ⟨i, _, hix⟩ := List.mem_map.mp hx
          rw [← hix]
          exact (repAccuracy_mem_unit test_img test_labels train_data i hne).2)
      simpa [nsmul_eq_mul] using h
    refine ⟨by rw [hval, get_average_accuracy_eq_mean], ?_, ?_⟩
    · rw [hval, get_average_accuracy_eq_mean]
      exact div_nonneg hsum0 (le_of_lt hdpos)
    · rw [hval, get_average_accuracy_eq_mean]
      rw [div_le_one hdpos]
      exact hsum1

/-- Witness for C5 on a one-query test set and a two-entry schedule with
1 and 2 repetitions. -/
theorem C5_witness :
    (accuracy_info [[0,0]] [0] [[0,0,0],[1,5,5]] [[[0]],[[1],[0]]]).length =
      ([[[0]],[[1],[0]]] : List (List (List ℕ))).length ∧
    ∀ j, j < ([[[0]],[[1],[0]]] : List (List (List ℕ))).length →
      (accuracy_info [[0,0]] [0] [[0,0,0],[1,5,5]] [[[0]],[[1],[0]]]).getD j 0 =
        ((([[[0]],[[1],[0]]] : List (List (List ℕ))).getD j []).map
          (repAccuracy [[0,0]] [0] [[0,0,0],[1,5,5]])).sum /
          ((([[[0]],[[1],[0]]] : List (List (List ℕ))).getD j []).length : ℚ) ∧
      0 ≤ (accuracy_info [[0,0]] [0] [[0,0,0],[1,5,5]] [[[0]],[[1],[0]]]).getD j 0 ∧
      (accuracy_info [[0,0]] [0] [[0,0,0],[1,5,5]] [[[0]],[[1],[0]]]).getD j 0 ≤ 1 :=
  C5_accuracy_curve [[0,0]] [0] [[0,0,0],[1,5,5]] [[[0]],[[1],[0]]]
    (by simp) rfl (by intro ds hds; fin_cases hds <;> simp)
